import Mathlib

/-!
Formal model of the rate-limited queue of this repository.

The modelled code is the persistent `RateLimitedQueue` (the variant with
`storageFile` / `processor` support); the older non-persistent variant of the
same class, which also ships in the repository, is modelled separately in the
`NonPersistent` namespace where a claim depends on it.

Modelling conventions:
* Wall-clock timestamps and millisecond configuration values are modelled as
  integers (`Date.now()` returns integral milliseconds).
* `maxPerWindow` is `Option Nat`: `none` models `Infinity` (the constructor
  coerces every non-finite or non-positive value to `Infinity`), `some n`
  models a finite positive cap.
* Calls to `Math.random()` are modelled as explicit rational inputs in
  `[0, 1)` (`RandomDraws`), threaded into `waitForSlot`.
* The asynchronous execution loop is modelled as a labelled transition system
  (`RateLimitedQueue.Step`): the suspension points of one loop iteration are
  the admission wait and the awaited executor call, so one iteration splits
  into a `startAttempt` transition (wait for slot, record the start time) and
  a `finishOk`/`finishErr` transition (executor outcome, counters, removal,
  settlement).  Enqueue can interleave at any point.  Ghost history fields
  (`arrivals`, `starts`, `startedIds`, `completions`, `settled`, `inFlight`,
  `fnEnqueued`) record the observable event history and touch no program
  variable.
-/

namespace RateLimitedQueue

/-- Configuration of a queue instance, after the constructor normalisation
(`Math.max(0, ...)` clamps, non-finite or non-positive `maxPerWindow` coerced
to `Infinity`, `longPauseChance` clamped into `[0,1]`,
`longPauseMaxMs = Math.max(longPauseMinMs, ...)`). -/
structure Config where
  minIntervalMs : ℤ
  maxPerWindow : Option ℕ
  windowMs : ℤ
  jitterMs : ℤ
  longPauseChance : ℚ
  longPauseMinMs : ℤ
  longPauseMaxMs : ℤ
  storageConfigured : Bool
  hasProcessor : Bool

/-- Postconditions of the constructor normalisation. -/
def Config.wf (c : Config) : Prop :=
  0 ≤ c.minIntervalMs ∧ c.maxPerWindow ≠ some 0 ∧ 0 ≤ c.windowMs ∧
    0 ≤ c.jitterMs ∧ 0 ≤ c.longPauseChance ∧ c.longPauseChance ≤ 1 ∧
    0 ≤ c.longPauseMinMs ∧ c.longPauseMinMs ≤ c.longPauseMaxMs

instance (c : Config) : Decidable c.wf := by
  unfold Config.wf; infer_instance

/-- One `Math.random()` outcome per random expression of `_waitForSlot`. -/
structure RandomDraws where
  jitterR : ℚ
  pauseGateR : ℚ
  pauseSpanR : ℚ

/-- `Math.random()` returns a value in `[0, 1)`. -/
def RandomDraws.wf (r : RandomDraws) : Prop :=
  0 ≤ r.jitterR ∧ r.jitterR < 1 ∧ 0 ≤ r.pauseGateR ∧ r.pauseGateR < 1 ∧
    0 ≤ r.pauseSpanR ∧ r.pauseSpanR < 1

instance (r : RandomDraws) : Decidable r.wf := by
  unfold RandomDraws.wf; infer_instance

/-- First block of `_waitForSlot` ("Smooth sending with a minimum
interval"): the value of `waitMs` (initially `0`) after
`if (this._lastStartAt !== null && this.minIntervalMs > 0) { const since =
now - this._lastStartAt; if (since < this.minIntervalMs) waitMs =
Math.max(waitMs, this.minIntervalMs - since); }`. -/
def spacingWaitMs (c : Config) (now : ℤ) (lastStartAt : Option ℤ) : ℤ :=
  match lastStartAt with
  | some last =>
    if 0 < c.minIntervalMs ∧ now - last < c.minIntervalMs then
      max 0 (c.minIntervalMs - (now - last))
    else 0
  | none => 0

/-- The value of `this._sentAt` after the sliding-window block of
`_waitForSlot`: inside the branch guard (`windowMs > 0` and finite
`maxPerWindow`) the code runs
`this._sentAt = this._sentAt.filter((t) => t > cutoff)` with
`cutoff = now - windowMs`; otherwise `_sentAt` is untouched. -/
def prunedSent (c : Config) (now : ℤ) (sentAt : List ℤ) : List ℤ :=
  match c.maxPerWindow with
  | some _ =>
    if 0 < c.windowMs then
      sentAt.filter (fun t => decide (now - c.windowMs < t))
    else sentAt
  | none => sentAt

/-- Second block of `_waitForSlot` ("Hard cap per sliding window"): the value
of `waitMs` after
`if (this._sentAt.length >= this.maxPerWindow) { const oldest =
this._sentAt[0]; const until = oldest + this.windowMs; waitMs =
Math.max(waitMs, Math.max(0, until - now)); }`, with `w` the incoming
`waitMs`. -/
def windowWaitMs (c : Config) (now : ℤ) (sentAt : List ℤ) (w : ℤ) : ℤ :=
  match c.maxPerWindow with
  | some n =>
    if 0 < c.windowMs ∧ n ≤ (prunedSent c now sentAt).length then
      max w (max 0 ((prunedSent c now sentAt).headD 0 + c.windowMs - now))
    else w
  | none => w

/-- Translation of `_waitForSlot`.  Returns the computed `waitMs` together
with the updated `_sentAt` field (the method prunes `_sentAt` in place inside
the sliding-window branch).  `now` is the `Date.now()` read at entry; the
jitter line is `if (this.jitterMs > 0) waitMs +=
Math.floor(Math.random() * (this.jitterMs + 1))` and the long-pause block
adds `this.longPauseMinMs + (span > 0 ?
Math.floor(Math.random() * (span + 1)) : 0)` with
`span = Math.max(0, this.longPauseMaxMs - this.longPauseMinMs)` when
`Math.random() < this.longPauseChance` (guarded by `longPauseChance > 0 &&
longPauseMaxMs > 0`, see `longPauseFires`). -/
def waitForSlot (c : Config) (now : ℤ) (lastStartAt : Option ℤ)
    (sentAt : List ℤ) (r : RandomDraws) : ℤ × List ℤ :=
  let w1 := spacingWaitMs c now lastStartAt
  let w2 := windowWaitMs c now sentAt w1
  let w3 :=
    if 0 < c.jitterMs then w2 + ⌊r.jitterR * ((c.jitterMs : ℚ) + 1)⌋ else w2
  let w4 :=
    if 0 < c.longPauseChance ∧ 0 < c.longPauseMaxMs ∧
        r.pauseGateR < c.longPauseChance then
      let span := max 0 (c.longPauseMaxMs - c.longPauseMinMs)
      w3 + (c.longPauseMinMs +
        (if 0 < span then ⌊r.pauseSpanR * ((span : ℚ) + 1)⌋ else 0))
    else w3
  (w4, prunedSent c now sentAt)

/-- Translation of `_recordSent`: push `now`, then (when a window is
configured) drop entries `≤ now - windowMs` from the front. -/
def recordSent (c : Config) (now : ℤ) (sentAt : List ℤ) : List ℤ :=
  let l := sentAt ++ [now]
  if 0 < c.windowMs then l.dropWhile (fun t => decide (t ≤ now - c.windowMs))
  else l

/-- The `sentInWindow` field of `stats()`:
`_sentAt.filter((t) => (this.windowMs ? t > now - this.windowMs : true))`.
The JavaScript condition tests the truthiness of `windowMs`. -/
def sentInWindow (c : Config) (now : ℤ) (sentAt : List ℤ) : ℕ :=
  (sentAt.filter
    (fun t => if c.windowMs = 0 then true else decide (now - c.windowMs < t))).length

/-! Specification-side formulas for the admission wait (translated from the
spec's words, for comparison with `waitForSlot`). -/

/-- Spec formula: spacing delay `max(0, lastStart + minIntervalMs - now)` when
a previous job has started and `minIntervalMs > 0`, else `0`. -/
def specSpacingDelay (c : Config) (now : ℤ) (lastStartAt : Option ℤ) : ℤ :=
  match lastStartAt with
  | some last =>
    if 0 < c.minIntervalMs then max 0 (last + c.minIntervalMs - now) else 0
  | none => 0

/-- Spec formula: window-cap delay `max(0, oldest + windowMs - now)` when the
pruned completion count reaches a finite `maxPerWindow`, else `0`.  Pruning
keeps the timestamps inside the trailing window `(now - windowMs, now]`. -/
def specWindowDelay (c : Config) (now : ℤ) (sentAt : List ℤ) : ℤ :=
  match c.maxPerWindow with
  | some n =>
    let pruned := sentAt.filter (fun t => decide (now - c.windowMs < t))
    if n ≤ pruned.length then max 0 (pruned.headD 0 + c.windowMs - now) else 0
  | none => 0

/-- The jitter amount the code adds: `Math.floor(Math.random()*(jitterMs+1))`
when `jitterMs > 0`, nothing otherwise. -/
def jitterContribution (c : Config) (r : RandomDraws) : ℤ :=
  if 0 < c.jitterMs then ⌊r.jitterR * ((c.jitterMs : ℚ) + 1)⌋ else 0

/-- The guard of the long-pause branch: the branch fires exactly when
`longPauseChance > 0`, `longPauseMaxMs > 0` and the uniform draw falls below
`longPauseChance`. -/
def longPauseFires (c : Config) (r : RandomDraws) : Prop :=
  0 < c.longPauseChance ∧ 0 < c.longPauseMaxMs ∧
    r.pauseGateR < c.longPauseChance

instance (c : Config) (r : RandomDraws) : Decidable (longPauseFires c r) := by
  unfold longPauseFires; infer_instance

/-- The long-pause amount the code adds when the branch fires. -/
def longPauseContribution (c : Config) (r : RandomDraws) : ℤ :=
  if longPauseFires c r then
    let span := max 0 (c.longPauseMaxMs - c.longPauseMinMs)
    c.longPauseMinMs + (if 0 < span then ⌊r.pauseSpanR * ((span : ℚ) + 1)⌋ else 0)
  else 0

/-- Count of completion timestamps in the trailing window `(T - w, T]`. -/
def winCount (w T : ℤ) (l : List ℤ) : ℕ :=
  (l.filter (fun t => decide (T - w < t ∧ t ≤ T))).length

/-! The queue state and its transitions.  `P` is the (opaque) payload type of
data jobs, `M` the metadata type, `R` the executor result type, `E` the type
of errors raised by an executor. -/

/-- A queued item as built by `enqueue`: `{ fn: isFn ? item : null,
data: isFn ? null : item, resolve, reject, meta }`.  The callback function
itself is opaque (its behaviour enters the model through executor outcomes),
so a job carries the `isFn` tag, the `data` field and the metadata, plus a
ghost arrival index standing for its completion handle. -/
structure Job (P M : Type) where
  id : ℕ
  isFn : Bool
  payload : Option P
  meta : M
deriving DecidableEq

/-- Argument of `enqueue`: a function (callback job) or any other value
(data job). -/
inductive Item (P : Type) where
  | fn : Item P
  | data : P → Item P

/-- Error carried by a rejection: the loop's own configuration error
(`throw new Error('No processor for data item')`) or an error raised by the
executor. -/
inductive JobError (E : Type) where
  | noProcessor : JobError E
  | exec : E → JobError E
deriving DecidableEq

/-- How a completion handle was settled. -/
inductive Outcome (R E : Type) where
  | resolved : R → Outcome R E
  | rejected : JobError E → Outcome R E
deriving DecidableEq

/-- Queue state.  The first block mirrors the instance fields of the class
(`_queue`, `_lastStartAt`, `_sentAt`, `_enqueued`, `_processed`, `_failed`,
and the storage file contents, `none` = absent file).  The second block is
ghost history: total arrivals (restored + enqueued), whether an attempt is in
flight and for which job, the list of recorded job start times, the ids in
start order, all successful completion timestamps ever recorded, and the
settlement events `(id, outcome)` in settlement order. -/
structure QState (P M R E : Type) where
  time : ℤ
  queue : List (Job P M)
  lastStartAt : Option ℤ
  sentAt : List ℤ
  enqueued : ℕ
  processed : ℕ
  failed : ℕ
  storage : Option (List (Option P × M))
  attempting : Bool
  arrivals : ℕ
  inFlight : Option (Job P M)
  fnEnqueued : Bool
  starts : List ℤ
  startedIds : List ℕ
  completions : List ℤ
  settled : List (ℕ × Outcome R E)

/-- What `_save` writes: `this._queue.map(q => ({ data: q.data, meta: q.meta }))`
over the whole queue. -/
def saveItems {P M : Type} (q : List (Job P M)) : List (Option P × M) :=
  q.map (fun j => (j.payload, j.meta))

/-- Effect of `enqueue(item, meta)` at clock value `tE`: increment
`_enqueued`, push the new job, and rewrite the storage file when a storage
file is configured and the item is not a function. -/
def enqueueOp {P M R E : Type} (c : Config) (s : QState P M R E)
    (it : Item P) (m : M) (tE : ℤ) : QState P M R E :=
  let isFn : Bool := match it with | .fn => true | .data _ => false
  let j : Job P M :=
    { id := s.arrivals, isFn := isFn,
      payload := match it with | .fn => none | .data p => some p,
      meta := m }
  let q := s.queue ++ [j]
  { s with
    time := tE
    queue := q
    enqueued := s.enqueued + 1
    storage :=
      if c.storageConfigured = true ∧ isFn = false then some (saveItems q)
      else s.storage
    arrivals := s.arrivals + 1
    fnEnqueued := s.fnEnqueued || isFn }

/-- Effect of the start of one loop iteration: peek the head, run
`_waitForSlot` (which prunes `_sentAt`), and set `_lastStartAt` to the clock
value `tStart` read after the admission sleep. -/
def startOp {P M R E : Type} (c : Config) (s : QState P M R E)
    (tCheck tStart : ℤ) (r : RandomDraws) : QState P M R E :=
  { s with
    time := tStart
    sentAt := (waitForSlot c tCheck s.lastStartAt s.sentAt r).2
    lastStartAt := some tStart
    attempting := true
    inFlight := s.queue.head?
    starts := s.starts ++ [tStart]
    startedIds := s.startedIds ++ (s.queue.head?.map Job.id).toList }

/-- Effect of a successful attempt of head job `j` concluding at clock value
`tC`: increment `_processed`, record the completion, remove the job, rewrite
storage for data jobs, resolve the handle. -/
def finishOkOp {P M R E : Type} (c : Config) (s : QState P M R E)
    (j : Job P M) (res : R) (tC : ℤ) : QState P M R E :=
  let q := s.queue.tail
  { s with
    time := tC
    processed := s.processed + 1
    sentAt := recordSent c tC s.sentAt
    queue := q
    storage :=
      if c.storageConfigured = true ∧ j.isFn = false then some (saveItems q)
      else s.storage
    attempting := false
    inFlight := none
    completions := s.completions ++ [tC]
    settled := s.settled ++ [(j.id, Outcome.resolved res)] }

/-- Effect of a failed attempt of head job `j` concluding at clock value
`tC`: increment `_failed`, remove the job, rewrite storage for data jobs,
reject the handle. -/
def finishErrOp {P M R E : Type} (c : Config) (s : QState P M R E)
    (j : Job P M) (err : JobError E) (tC : ℤ) : QState P M R E :=
  let q := s.queue.tail
  { s with
    time := tC
    failed := s.failed + 1
    queue := q
    storage :=
      if c.storageConfigured = true ∧ j.isFn = false then some (saveItems q)
      else s.storage
    attempting := false
    inFlight := none
    settled := s.settled ++ [(j.id, Outcome.rejected err)] }

/-- A job reconstructed by `_load` from a persisted `{data, meta}` record:
it has no `fn` field, so the loop treats it as a data job. -/
def mkRestored {P M : Type} (i : ℕ) (it : Option P × M) : Job P M :=
  { id := i, isFn := false, payload := it.1, meta := it.2 }

/-- Initial state of an instance constructed at clock value `t0` over a
storage file with contents `file` (`none`: absent or unparseable, nothing
restored).  `_load` pushes the restored records onto the queue without
touching any counter. -/
def initState {P M R E : Type} (_c : Config) (t0 : ℤ)
    (file : Option (List (Option P × M))) : QState P M R E :=
  let items := file.getD []
  { time := t0
    queue := items.enum.map (fun pr => mkRestored pr.1 pr.2)
    lastStartAt := none
    sentAt := []
    enqueued := 0
    processed := 0
    failed := 0
    storage := file
    attempting := false
    arrivals := items.length
    inFlight := none
    fnEnqueued := false
    starts := []
    startedIds := []
    completions := []
    settled := [] }

/-- Transitions of one queue instance.  Clock reads are existential
parameters constrained only by monotonicity; the admission sleep guarantees
that the start-time read happens at least `waitMs` after the check-time
read. -/
inductive Step {P M R E : Type} (c : Config) :
    QState P M R E → QState P M R E → Prop where
  | enqueue (s : QState P M R E) (it : Item P) (m : M) (tE : ℤ)
      (ht : s.time ≤ tE) :
      Step c s (enqueueOp c s it m tE)
  | startAttempt (s : QState P M R E) (j : Job P M)
      (hq : s.queue.head? = some j) (ha : s.attempting = false)
      (tCheck tStart : ℤ) (r : RandomDraws) (hr : r.wf)
      (h1 : s.time ≤ tCheck)
      (h2 : tCheck + (waitForSlot c tCheck s.lastStartAt s.sentAt r).1 ≤ tStart)
      (h3 : tCheck ≤ tStart) :
      Step c s (startOp c s tCheck tStart r)
  | finishOk (s : QState P M R E) (j : Job P M)
      (hq : s.queue.head? = some j) (ha : s.attempting = true)
      (res : R) (tC : ℤ) (h1 : s.time ≤ tC)
      (hexec : j.isFn = true ∨ c.hasProcessor = true) :
      Step c s (finishOkOp c s j res tC)
  | finishErr (s : QState P M R E) (j : Job P M)
      (hq : s.queue.head? = some j) (ha : s.attempting = true)
      (err : JobError E) (tC : ℤ) (h1 : s.time ≤ tC)
      (herr : match err with
        | .noProcessor => j.isFn = false ∧ c.hasProcessor = false
        | .exec _ => j.isFn = true ∨ c.hasProcessor = true) :
      Step c s (finishErrOp c s j err tC)

/-- Reachability of a state from a given initial state. -/
def Reachable {P M R E : Type} (c : Config) (s0 s : QState P M R E) : Prop :=
  Relation.ReflTransGen (Step c) s0 s

/-- The pending list the spec says a snapshot write contains: only the data
jobs' pairs. -/
def dataOnlySnapshot {P M : Type} (q : List (Job P M)) : List (Option P × M) :=
  (q.filter (fun j => j.isFn = false)).map (fun j => (j.payload, j.meta))

/-- Ids listed in the settlement order. -/
def settledIds {P M R E : Type} (s : QState P M R E) : List ℕ :=
  s.settled.map Prod.fst

/-- Ids of the pending jobs in queue order. -/
def queueIds {P M R E : Type} (s : QState P M R E) : List ℕ :=
  s.queue.map Job.id

/-- Inductive invariant of one queue instance, over the transition system
`Step`, for an instance constructed over file contents `file`. -/
structure Inv {P M R E : Type} (c : Config)
    (file : Option (List (Option P × M))) (s : QState P M R E) : Prop where
  ids : settledIds s ++ queueIds s = List.range s.arrivals
  startedT : s.attempting = true →
    s.startedIds = List.range (s.settled.length + 1)
  startedF : s.attempting = false →
    s.startedIds = List.range s.settled.length
  arr : s.arrivals = (file.getD []).length + s.enqueued
  settLen : s.settled.length = s.processed + s.failed
  procLen : s.processed = s.completions.length
  startsTime : ∀ t ∈ s.starts, t ≤ s.time
  lastEq : s.lastStartAt = s.starts.getLast?
  chain : s.starts.Chain' (fun a b => a + c.minIntervalMs ≤ b)
  compSorted : s.completions.Sorted (· ≤ ·)
  compTime : ∀ t ∈ s.completions, t ≤ s.time
  sentRecent : 0 < c.windowMs → ∃ u, u ≤ s.time ∧
    s.sentAt = s.completions.filter (fun t => decide (u - c.windowMs < t))
  sentAll : c.windowMs = 0 → s.sentAt = s.completions
  winCap : ∀ n, c.maxPerWindow = some n → 0 < c.windowMs →
    ∀ T, winCount c.windowMs T s.completions ≤ n
  attemptWin : ∀ n, c.maxPerWindow = some n → 0 < c.windowMs →
    s.attempting = true →
    s.sentAt.length ≤ n ∧ (n ≤ s.sentAt.length →
      ∃ tS, s.lastStartAt = some tS ∧ s.sentAt.headD 0 + c.windowMs ≤ tS)
  flightT : s.attempting = true → s.inFlight = s.queue.head? ∧ s.queue ≠ []
  flightF : s.attempting = false → s.inFlight = none
  storageMem : c.storageConfigured = true → ∀ j ∈ s.queue, j.isFn = false →
    (j.payload, j.meta) ∈ s.storage.getD []
  mirror : c.storageConfigured = true → s.fnEnqueued = false →
    s.storage = some (saveItems s.queue) ∨ (s.storage = none ∧ s.queue = [])
  allData : s.fnEnqueued = false → ∀ j ∈ s.queue, j.isFn = false

/-! Concrete instances used by the witnesses. -/

/-- A representative well-formed configuration. -/
def cfgBase : Config :=
  { minIntervalMs := 5, maxPerWindow := some 2, windowMs := 10, jitterMs := 3,
    longPauseChance := 1, longPauseMinMs := 1, longPauseMaxMs := 4,
    storageConfigured := true, hasProcessor := true }

/-- Degenerate random draws (all zero). -/
def rdZero : RandomDraws := { jitterR := 0, pauseGateR := 0, pauseSpanR := 0 }

/-- The snapshot of observable fields returned by `stats()` (the `_processing`
flag is scheduler bookkeeping outside this model; the configuration echoes
are the configuration itself). -/
structure StatsView where
  queued : ℕ
  enqueued : ℕ
  processed : ℕ
  failed : ℕ
  sentInWindow : ℕ
  isPersistent : Bool

/-- Translation of `stats()` at clock value `now`. -/
def stats {P M R E : Type} (c : Config) (s : QState P M R E)
    (now : ℤ) : StatsView :=
  { queued := s.queue.length
    enqueued := s.enqueued
    processed := s.processed
    failed := s.failed
    sentInWindow := sentInWindow c now s.sentAt
    isPersistent := c.storageConfigured }

/-- A storage-configured instance with no rate limiting, for concrete
traces. -/
def cfg6 : Config :=
  { minIntervalMs := 0, maxPerWindow := none, windowMs := 0, jitterMs := 0,
    longPauseChance := 0, longPauseMinMs := 0, longPauseMaxMs := 0,
    storageConfigured := true, hasProcessor := true }

/-- Fresh instance over an absent storage file. -/
def s6a : QState ℕ ℕ ℕ ℕ := initState cfg6 0 none

/-- After enqueueing a callback job with metadata `7`. -/
def s6b : QState ℕ ℕ ℕ ℕ := enqueueOp cfg6 s6a Item.fn 7 0

/-- After additionally enqueueing a data job with payload `5`, metadata `8`;
this enqueue triggers a snapshot write. -/
def s6c : QState ℕ ℕ ℕ ℕ := enqueueOp cfg6 s6b (Item.data 5) 8 0

namespace NonPersistent

/-- A queued item of the non-persistent variant of `RateLimitedQueue` (the
first file of the repository): `{ fn, resolve, reject, meta }`.  The callback
is opaque; `id` is a ghost arrival index. -/
structure JobNP (M : Type) where
  id : ℕ
  meta : M
deriving DecidableEq

/-- State of the non-persistent variant, with a ghost `inFlight` field
recording the item popped by the loop and currently being attempted. -/
structure StateNP (M : Type) where
  time : ℤ
  queue : List (JobNP M)
  lastStartAt : Option ℤ
  sentAt : List ℤ
  enqueued : ℕ
  processed : ℕ
  failed : ℕ
  arrivals : ℕ
  inFlight : Option (JobNP M)

/-- `_waitForSlot` of the non-persistent variant: identical to the
persistent one except that it has no long-pause block. -/
def waitForSlotNP (c : Config) (now : ℤ) (lastStartAt : Option ℤ)
    (sentAt : List ℤ) (rd : RandomDraws) : ℤ × List ℤ :=
  let w1 := spacingWaitMs c now lastStartAt
  let w2 := windowWaitMs c now sentAt w1
  let w3 :=
    if 0 < c.jitterMs then w2 + ⌊rd.jitterR * ((c.jitterMs : ℚ) + 1)⌋ else w2
  (w3, prunedSent c now sentAt)

/-- `enqueue(fn, meta)` of the non-persistent variant (it accepts only
functions). -/
def enqueueOpNP {M : Type} (s : StateNP M) (m : M) (tE : ℤ) : StateNP M :=
  { s with
    time := tE
    queue := s.queue ++ [{ id := s.arrivals, meta := m }]
    enqueued := s.enqueued + 1
    arrivals := s.arrivals + 1 }

/-- Start of one loop iteration of the non-persistent variant: the head item
is POPPED (`const item = this._queue.shift()`) before the admission wait and
the executor call. -/
def startOpNP {M : Type} (c : Config) (s : StateNP M) (j : JobNP M)
    (tCheck tStart : ℤ) (rd : RandomDraws) : StateNP M :=
  { s with
    time := tStart
    queue := s.queue.tail
    sentAt := (waitForSlotNP c tCheck s.lastStartAt s.sentAt rd).2
    lastStartAt := some tStart
    inFlight := some j }

/-- Successful conclusion of an attempt in the non-persistent variant. -/
def finishOkOpNP {M : Type} (c : Config) (s : StateNP M) (tC : ℤ) :
    StateNP M :=
  { s with
    time := tC
    processed := s.processed + 1
    sentAt := recordSent c tC s.sentAt
    inFlight := none }

/-- Failed conclusion of an attempt in the non-persistent variant. -/
def finishErrOpNP {M : Type} (_c : Config) (s : StateNP M) (tC : ℤ) :
    StateNP M :=
  { s with
    time := tC
    failed := s.failed + 1
    inFlight := none }

/-- Transitions of the non-persistent variant. -/
inductive StepNP {M : Type} (c : Config) : StateNP M → StateNP M → Prop where
  | enqueue (s : StateNP M) (m : M) (tE : ℤ) (ht : s.time ≤ tE) :
      StepNP c s (enqueueOpNP s m tE)
  | startAttempt (s : StateNP M) (j : JobNP M) (hq : s.queue.head? = some j)
      (hf : s.inFlight = none) (tCheck tStart : ℤ) (rd : RandomDraws)
      (hrd : rd.wf) (h1 : s.time ≤ tCheck)
      (h2 : tCheck + (waitForSlotNP c tCheck s.lastStartAt s.sentAt rd).1 ≤ tStart)
      (h3 : tCheck ≤ tStart) :
      StepNP c s (startOpNP c s j tCheck tStart rd)
  | finishOk (s : StateNP M) (j : JobNP M) (hf : s.inFlight = some j)
      (tC : ℤ) (h1 : s.time ≤ tC) : StepNP c s (finishOkOpNP c s tC)
  | finishErr (s : StateNP M) (j : JobNP M) (hf : s.inFlight = some j)
      (tC : ℤ) (h1 : s.time ≤ tC) : StepNP c s (finishErrOpNP c s tC)

/-- Reachability in the non-persistent variant. -/
def ReachableNP {M : Type} (c : Config) (s0 s : StateNP M) : Prop :=
  Relation.ReflTransGen (StepNP c) s0 s

/-- Fresh non-persistent instance. -/
def initNP {M : Type} (t0 : ℤ) : StateNP M :=
  { time := t0, queue := [], lastStartAt := none, sentAt := [], enqueued := 0,
    processed := 0, failed := 0, arrivals := 0, inFlight := none }

/-- Unlimited configuration for the non-persistent counterexample trace. -/
def cfgNP : Config :=
  { minIntervalMs := 0, maxPerWindow := none, windowMs := 0, jitterMs := 0,
    longPauseChance := 0, longPauseMinMs := 0, longPauseMaxMs := 0,
    storageConfigured := false, hasProcessor := false }

/-- Fresh non-persistent instance at time 0. -/
def sNP0 : StateNP ℕ := initNP 0

/-- After one enqueue. -/
def sNP1 : StateNP ℕ := enqueueOpNP sNP0 3 0

/-- The enqueued job. -/
def jNP : JobNP ℕ := { id := 0, meta := 3 }

/-- Mid-attempt state: the loop has popped the job and is attempting it. -/
def sNP2 : StateNP ℕ := startOpNP cfgNP sNP1 jNP 0 0 rdZero

end NonPersistent

/-- The callback job of the `s6b` trace. -/
def jB : Job ℕ ℕ := { id := 0, isFn := true, payload := none, meta := 7 }

/-- Mid-attempt state of the persistent variant: attempting the head of
`s6b`. -/
def sB2 : QState ℕ ℕ ℕ ℕ := startOp cfg6 s6b 0 0 rdZero

/-- A configuration with no processor configured. -/
def cfg8 : Config :=
  { minIntervalMs := 0, maxPerWindow := none, windowMs := 0, jitterMs := 0,
    longPauseChance := 0, longPauseMinMs := 0, longPauseMaxMs := 0,
    storageConfigured := false, hasProcessor := false }

/-! Analysis of `waitForSlot`, and the list lemmas used by the invariant
proofs. -/

lemma floor_scaled_nonneg (x b : ℚ) (hx : 0 ≤ x) (hb : 0 ≤ b) :
    (0 : ℤ) ≤ ⌊x * b⌋ :=
  Int.floor_nonneg.mpr (mul_nonneg hx hb)

lemma floor_scaled_le (x : ℚ) (hx : x < 1) (j : ℤ) (hj : 0 ≤ j) :
    ⌊x * ((j : ℚ) + 1)⌋ ≤ j := by
  have hb : (0 : ℚ) < (j : ℚ) + 1 := by positivity
  have h1 : x * ((j : ℚ) + 1) < (j : ℚ) + 1 := by
    calc x * ((j : ℚ) + 1) < 1 * ((j : ℚ) + 1) :=
          mul_lt_mul_of_pos_right hx hb
      _ = (j : ℚ) + 1 := one_mul _
  have h2 : ⌊x * ((j : ℚ) + 1)⌋ < j + 1 :=
    Int.floor_lt.mpr (by push_cast; exact h1)
  omega

lemma spacingWaitMs_nonneg (c : Config) (now : ℤ) (last : Option ℤ) :
    0 ≤ spacingWaitMs c now last := by
  unfold spacingWaitMs
  cases last with
  | none => exact le_refl 0
  | some l =>
    dsimp only
    split
    · exact le_max_left 0 _
    · exact le_refl 0

lemma specSpacingDelay_nonneg (c : Config) (now : ℤ) (last : Option ℤ) :
    0 ≤ specSpacingDelay c now last := by
  unfold specSpacingDelay
  cases last with
  | none => exact le_refl 0
  | some l =>
    dsimp only
    split
    · exact le_max_left 0 _
    · exact le_refl 0

lemma specWindowDelay_nonneg (c : Config) (now : ℤ) (sentAt : List ℤ) :
    0 ≤ specWindowDelay c now sentAt := by
  unfold specWindowDelay
  cases c.maxPerWindow with
  | none => exact le_refl 0
  | some n =>
    dsimp only
    split
    · exact le_max_left 0 _
    · exact le_refl 0

lemma spacingWaitMs_eq_spec (c : Config) (now : ℤ) (last : Option ℤ) :
    spacingWaitMs c now last = specSpacingDelay c now last := by
  unfold spacingWaitMs specSpacingDelay
  cases last with
  | none => rfl
  | some l =>
    dsimp only
    by_cases hmin : 0 < c.minIntervalMs
    · by_cases hsince : now - l < c.minIntervalMs
      · rw [if_pos ⟨hmin, hsince⟩, if_pos hmin]
        congr 1
        omega
      · rw [if_neg (by tauto), if_pos hmin]
        have h : l + c.minIntervalMs - now ≤ 0 := by omega
        omega
    · rw [if_neg (by tauto), if_neg hmin]

lemma cap_pos (c : Config) (hc : c.wf) {n : ℕ} (h : c.maxPerWindow = some n) :
    0 < n := by
  rcases Nat.eq_zero_or_pos n with h0 | h0
  · exact absurd (h0 ▸ h) hc.2.1
  · exact h0

lemma windowWaitMs_eq_spec (c : Config) (now : ℤ) (sentAt : List ℤ) (w : ℤ)
    (hc : c.wf) (hw : 0 ≤ w) (hsent : ∀ t ∈ sentAt, t ≤ now) :
    windowWaitMs c now sentAt w = max w (specWindowDelay c now sentAt) := by
  unfold windowWaitMs specWindowDelay prunedSent
  cases hmax : c.maxPerWindow with
  | none => exact (max_eq_left hw).symm
  | some n =>
    dsimp only
    by_cases hW : 0 < c.windowMs
    · rw [if_pos hW]
      by_cases hlen :
          n ≤ (sentAt.filter (fun t => decide (now - c.windowMs < t))).length
      · rw [if_pos ⟨hW, hlen⟩, if_pos hlen]
      · rw [if_neg (by tauto), if_neg hlen]
        exact (max_eq_left hw).symm
    · have hW0 : c.windowMs = 0 := by
        have := hc.2.2.1
        omega
      rw [if_neg (by tauto)]
      have hfil : sentAt.filter (fun t => decide (now - c.windowMs < t)) = [] := by
        rw [List.filter_eq_nil_iff]
        intro t ht
        have := hsent t ht
        simp only [decide_eq_true_eq, not_lt]
        omega
      rw [hfil]
      have hn := cap_pos c hc hmax
      rw [if_neg (by simp; omega)]
      exact (max_eq_left hw).symm

lemma jitterContribution_nonneg (c : Config) (r : RandomDraws)
    (hr : r.wf) : 0 ≤ jitterContribution c r := by
  unfold jitterContribution
  split
  · exact floor_scaled_nonneg _ _ hr.1 (by positivity)
  · exact le_refl 0

lemma jitterContribution_le (c : Config) (r : RandomDraws)
    (hc : c.wf) (hr : r.wf) : jitterContribution c r ≤ c.jitterMs := by
  unfold jitterContribution
  split
  · exact floor_scaled_le _ hr.2.1 _ hc.2.2.2.1
  · exact hc.2.2.2.1

lemma longPauseContribution_bounds (c : Config) (r : RandomDraws)
    (hc : c.wf) (hr : r.wf) (hf : longPauseFires c r) :
    c.longPauseMinMs ≤ longPauseContribution c r ∧
      longPauseContribution c r ≤ c.longPauseMaxMs := by
  have hle := hc.2.2.2.2.2.2.2
  have hspan : max 0 (c.longPauseMaxMs - c.longPauseMinMs) =
      c.longPauseMaxMs - c.longPauseMinMs := by omega
  unfold longPauseContribution
  rw [if_pos hf]
  dsimp only
  rw [hspan]
  by_cases hpos : 0 < c.longPauseMaxMs - c.longPauseMinMs
  · rw [if_pos hpos]
    have h1 := floor_scaled_nonneg r.pauseSpanR
      (((c.longPauseMaxMs - c.longPauseMinMs : ℤ) : ℚ) + 1) hr.2.2.2.2.1
      (by positivity)
    have h2 := floor_scaled_le r.pauseSpanR hr.2.2.2.2.2
      (c.longPauseMaxMs - c.longPauseMinMs) (by omega)
    omega
  · rw [if_neg hpos]
    omega

lemma longPauseContribution_nonneg (c : Config) (r : RandomDraws)
    (hc : c.wf) (hr : r.wf) : 0 ≤ longPauseContribution c r := by
  by_cases hf : longPauseFires c r
  · have h1 := (longPauseContribution_bounds c r hc hr hf).1
    have h2 := hc.2.2.2.2.2.2.1
    omega
  · unfold longPauseContribution
    rw [if_neg hf]

lemma longPauseContribution_of_not_fires (c : Config) (r : RandomDraws)
    (hf : ¬ longPauseFires c r) : longPauseContribution c r = 0 := by
  unfold longPauseContribution
  rw [if_neg hf]

/-- Structural form of the admission wait: the window stage applied to the
spacing stage, plus the jitter and long-pause contributions. -/
lemma waitForSlot_fst_struct (c : Config) (now : ℤ) (last : Option ℤ)
    (sentAt : List ℤ) (r : RandomDraws) :
    (waitForSlot c now last sentAt r).1 =
      windowWaitMs c now sentAt (spacingWaitMs c now last) +
        jitterContribution c r + longPauseContribution c r := by
  unfold waitForSlot jitterContribution longPauseContribution longPauseFires
  dsimp only
  split_ifs <;> ring

/-- Closed form of the admission wait: the maximum of the spec's spacing and
window-cap delays, plus the jitter contribution, plus the long-pause
contribution. -/
lemma waitForSlot_fst (c : Config) (now : ℤ) (last : Option ℤ)
    (sentAt : List ℤ) (r : RandomDraws) (hc : c.wf)
    (hsent : ∀ t ∈ sentAt, t ≤ now) :
    (waitForSlot c now last sentAt r).1 =
      max (specSpacingDelay c now last) (specWindowDelay c now sentAt) +
        jitterContribution c r + longPauseContribution c r := by
  rw [waitForSlot_fst_struct,
    windowWaitMs_eq_spec c now sentAt _ hc (spacingWaitMs_nonneg c now last) hsent,
    spacingWaitMs_eq_spec]

/-- The second component of `waitForSlot` is the pruned `_sentAt`. -/
lemma waitForSlot_snd (c : Config) (now : ℤ) (last : Option ℤ)
    (sentAt : List ℤ) (r : RandomDraws) :
    (waitForSlot c now last sentAt r).2 = prunedSent c now sentAt := rfl

lemma specSpacingDelay_le_waitForSlot (c : Config) (now : ℤ) (last : Option ℤ)
    (sentAt : List ℤ) (r : RandomDraws) (hc : c.wf) (hr : r.wf)
    (hsent : ∀ t ∈ sentAt, t ≤ now) :
    specSpacingDelay c now last ≤ (waitForSlot c now last sentAt r).1 := by
  rw [waitForSlot_fst c now last sentAt r hc hsent]
  have h1 := jitterContribution_nonneg c r hr
  have h2 := longPauseContribution_nonneg c r hc hr
  have h3 := le_max_left (specSpacingDelay c now last) (specWindowDelay c now sentAt)
  omega

lemma specWindowDelay_le_waitForSlot (c : Config) (now : ℤ) (last : Option ℤ)
    (sentAt : List ℤ) (r : RandomDraws) (hc : c.wf) (hr : r.wf)
    (hsent : ∀ t ∈ sentAt, t ≤ now) :
    specWindowDelay c now sentAt ≤ (waitForSlot c now last sentAt r).1 := by
  rw [waitForSlot_fst c now last sentAt r hc hsent]
  have h1 := jitterContribution_nonneg c r hr
  have h2 := longPauseContribution_nonneg c r hc hr
  have h3 := le_max_right (specSpacingDelay c now last) (specWindowDelay c now sentAt)
  omega

lemma waitForSlot_nonneg (c : Config) (now : ℤ) (last : Option ℤ)
    (sentAt : List ℤ) (r : RandomDraws) (hc : c.wf) (hr : r.wf)
    (hsent : ∀ t ∈ sentAt, t ≤ now) :
    0 ≤ (waitForSlot c now last sentAt r).1 := by
  have h1 := specSpacingDelay_nonneg c now last
  have h2 := specSpacingDelay_le_waitForSlot c now last sentAt r hc hr hsent
  omega

lemma sorted_dropWhile_eq_filter (x : ℤ) :
    ∀ l : List ℤ, l.Sorted (· ≤ ·) →
      l.dropWhile (fun t => decide (t ≤ x)) = l.filter (fun t => decide (x < t))
  | [], _ => rfl
  | a :: l, h => by
    rcases List.sorted_cons.mp h with ⟨hal, hl⟩
    by_cases ha : a ≤ x
    · rw [List.dropWhile_cons_of_pos (by simpa using ha),
        List.filter_cons_of_neg (by simpa using ha)]
      exact sorted_dropWhile_eq_filter x l hl
    · rw [List.dropWhile_cons_of_neg (by simpa using ha),
        List.filter_cons_of_pos (by simpa using ha)]
      have hfix : l.filter (fun t => decide (x < t)) = l :=
        List.filter_eq_self.mpr (fun b hb => by
          have hab := hal b hb
          simp only [decide_eq_true_eq]
          omega)
      rw [hfix]

lemma filter_filter_cut (u v : ℤ) (huv : u ≤ v) (l : List ℤ) :
    (l.filter (fun t => decide (u < t))).filter (fun t => decide (v < t)) =
      l.filter (fun t => decide (v < t)) := by
  rw [List.filter_filter]
  refine List.filter_congr (fun t _ => ?_)
  by_cases h : v < t
  · have h2 : u < t := by omega
    simp [h, h2]
  · simp [h]

lemma Inv.sent_le_time {P M R E : Type} {c : Config}
    {file : Option (List (Option P × M))} {s : QState P M R E}
    (hi : Inv c file s) (hc : c.wf) : ∀ t ∈ s.sentAt, t ≤ s.time := by
  intro t ht
  rcases lt_or_eq_of_le hc.2.2.1 with hW | hW
  · rcases hi.sentRecent hW with ⟨u, _, hform⟩
    rw [hform] at ht
    exact hi.compTime t (List.mem_of_mem_filter ht)
  · rw [hi.sentAll hW.symm] at ht
    exact hi.compTime t ht

lemma Inv.last_le_time {P M R E : Type} {c : Config}
    {file : Option (List (Option P × M))} {s : QState P M R E}
    (hi : Inv c file s) : ∀ tS, s.lastStartAt = some tS → tS ≤ s.time := by
  intro tS h
  rw [hi.lastEq] at h
  have hmem : tS ∈ s.starts := by
    rcases List.mem_getLast?_eq_getLast (l := s.starts) (x := tS) h with ⟨hne, heq⟩
    rw [heq]
    exact List.getLast_mem hne
  exact hi.startsTime tS hmem

lemma saveItems_restored {P M : Type} (items : List (Option P × M)) :
    saveItems (items.enum.map (fun pr => mkRestored (P := P) (M := M) pr.1 pr.2)) =
      items := by
  unfold saveItems
  rw [List.map_map]
  have h : ((fun j : Job P M => (j.payload, j.meta)) ∘
      fun pr : ℕ × (Option P × M) => mkRestored pr.1 pr.2) = Prod.snd := rfl
  rw [h, List.enum_map_snd]

lemma inv_init {P M R E : Type} (c : Config) (t0 : ℤ)
    (file : Option (List (Option P × M))) :
    Inv c file (initState (P := P) (M := M) (R := R) (E := E) c t0 file) := by
  refine ⟨?_, ?_, ?_, ?_, ?_, ?_, ?_, ?_, ?_, ?_, ?_, ?_, ?_, ?_, ?_, ?_, ?_,
    ?_, ?_, ?_⟩
  · show [] ++ (List.map Job.id ((file.getD []).enum.map
        (fun pr => mkRestored pr.1 pr.2))) = List.range (file.getD []).length
    rw [List.nil_append, List.map_map]
    have h : (Job.id ∘ fun pr : ℕ × (Option P × M) => mkRestored pr.1 pr.2) =
        Prod.fst := rfl
    rw [h, List.enum_map_fst]
  · intro h
    exact absurd h (by simp [initState])
  · intro _
    rfl
  · rfl
  · rfl
  · rfl
  · intro t ht
    exact absurd ht (List.not_mem_nil t)
  · rfl
  · exact List.chain'_nil
  · exact List.sorted_nil
  · intro t ht
    exact absurd ht (List.not_mem_nil t)
  · intro _
    exact ⟨t0, le_refl t0, rfl⟩
  · intro _
    rfl
  · intro n _ _ T
    exact Nat.zero_le n
  · intro n _ _ h
    exact absurd h (by simp [initState])
  · intro h
    exact absurd h (by simp [initState])
  · intro _
    rfl
  · intro _ j hj _
    show (j.payload, j.meta) ∈ file.getD []
    rcases List.mem_map.mp hj with ⟨pr, hpr, hj2⟩
    rw [← hj2]
    show (pr.2.1, pr.2.2) ∈ file.getD []
    have hp : (pr.2.1, pr.2.2) = pr.2 := rfl
    rw [hp]
    exact List.snd_mem_of_mem_enum hpr
  · intro _ _
    cases file with
    | none => exact Or.inr ⟨rfl, rfl⟩
    | some items =>
      left
      show some items = some (saveItems (items.enum.map
        (fun pr => mkRestored pr.1 pr.2)))
      rw [saveItems_restored]
  · intro _ j hj
    rcases List.mem_map.mp hj with ⟨pr, _, hj2⟩
    rw [← hj2]
    rfl

lemma inv_enqueue {P M R E : Type} {c : Config}
    {file : Option (List (Option P × M))} {s : QState P M R E}
    (hi : Inv c file s) (it : Item P) (m : M) (tE : ℤ)
    (ht : s.time ≤ tE) : Inv c file (enqueueOp c s it m tE) := by
  refine ⟨?_, ?_, ?_, ?_, ?_, ?_, ?_, ?_, ?_, ?_, ?_, ?_, ?_, ?_, ?_, ?_, ?_,
    ?_, ?_, ?_⟩
  · simp only [enqueueOp, settledIds, queueIds]
    rw [List.map_append, ← List.append_assoc]
    have h1 : settledIds s ++ queueIds s = List.range s.arrivals := hi.ids
    simp only [settledIds, queueIds] at h1
    rw [h1, List.range_succ]
    rfl
  · intro h
    exact hi.startedT h
  · intro h
    exact hi.startedF h
  · show s.arrivals + 1 = (file.getD []).length + (s.enqueued + 1)
    have h := hi.arr
    omega
  · exact hi.settLen
  · exact hi.procLen
  · intro t htm
    exact le_trans (hi.startsTime t htm) ht
  · exact hi.lastEq
  · exact hi.chain
  · exact hi.compSorted
  · intro t htm
    exact le_trans (hi.compTime t htm) ht
  · intro hW
    rcases hi.sentRecent hW with ⟨u, hu, hform⟩
    exact ⟨u, le_trans hu ht, hform⟩
  · exact hi.sentAll
  · exact hi.winCap
  · exact hi.attemptWin
  · intro h
    rcases hi.flightT h with ⟨hf, hne⟩
    simp only [enqueueOp]
    cases hq : s.queue with
    | nil => exact absurd hq hne
    | cons a tl =>
      constructor
      · rw [hf, hq]
        rfl
      · simp
  · intro h
    exact hi.flightF h
  · intro hsc j' hj' hdata
    cases it with
    | fn =>
      simp only [enqueueOp] at hj' ⊢
      rw [if_neg (by simp)]
      rcases List.mem_append.mp hj' with hold | hnew
      · exact hi.storageMem hsc j' hold hdata
      · rcases List.mem_singleton.mp hnew with rfl
        simp at hdata
    | data p =>
      simp only [enqueueOp] at hj' ⊢
      rw [if_pos (by simp [hsc])]
      exact List.mem_map_of_mem _ hj'
  · intro hsc hfe
    cases it with
    | fn =>
      exfalso
      have h : (s.fnEnqueued || true) = false := hfe
      simp at h
    | data p =>
      left
      simp only [enqueueOp]
      rw [if_pos (by simp [hsc])]
  · intro hfe j' hj'
    cases it with
    | fn =>
      exfalso
      have h : (s.fnEnqueued || true) = false := hfe
      simp at h
    | data p =>
      have hfe2 : s.fnEnqueued = false := by
        have h : (s.fnEnqueued || false) = false := hfe
        simpa using h
      simp only [enqueueOp] at hj'
      rcases List.mem_append.mp hj' with hold | hnew
      · exact hi.allData hfe2 j' hold
      · rcases List.mem_singleton.mp hnew with rfl
        rfl

lemma head?_eq_cons {α : Type} {l : List α} {a : α} (h : l.head? = some a) :
    ∃ tl, l = a :: tl := by
  cases hl : l with
  | nil => rw [hl] at h; cases h
  | cons b tl =>
    rw [hl] at h
    injection h with hba
    exact ⟨tl, by rw [hba]⟩

lemma winCount_eq_filter (w T : ℤ) (l : List ℤ) (hT : ∀ t ∈ l, t ≤ T) :
    winCount w T l = (l.filter (fun t => decide (T - w < t))).length := by
  unfold winCount
  congr 1
  refine List.filter_congr (fun t ht => ?_)
  have h := hT t ht
  by_cases h2 : T - w < t
  · simp [h2, h]
  · simp [h2]

/-- Position of the head job in the global arrival order: it is the next id
to settle. -/
lemma head_id_eq {P M R E : Type} {c : Config}
    {file : Option (List (Option P × M))} {s : QState P M R E}
    (hi : Inv c file s) {j : Job P M} {tl : List (Job P M)}
    (hq2 : s.queue = j :: tl) : j.id = s.settled.length := by
  have h5 : settledIds s ++ j.id :: List.map Job.id tl = List.range s.arrivals := by
    have h := hi.ids
    unfold queueIds at h
    rw [hq2] at h
    simpa using h
  have hlenlt : (settledIds s).length < s.arrivals := by
    have h := congrArg List.length h5
    simp at h
    omega
  have hL : (settledIds s ++ j.id :: List.map Job.id tl)[(settledIds s).length]? =
      (List.range s.arrivals)[(settledIds s).length]? := by rw [h5]
  rw [List.getElem?_append_right (le_refl _), List.getElem?_range hlenlt] at hL
  simp at hL
  rw [hL]
  unfold settledIds
  rw [List.length_map]

lemma inv_start {P M R E : Type} {c : Config}
    {file : Option (List (Option P × M))} {s : QState P M R E}
    (hi : Inv c file s) (hc : c.wf) (j : Job P M)
    (hq : s.queue.head? = some j) (ha : s.attempting = false)
    (tCheck tStart : ℤ) (r : RandomDraws) (hr : r.wf)
    (h1 : s.time ≤ tCheck)
    (h2 : tCheck + (waitForSlot c tCheck s.lastStartAt s.sentAt r).1 ≤ tStart)
    (h3 : tCheck ≤ tStart) :
    Inv c file (startOp c s tCheck tStart r) := by
  obtain ⟨tl, hq2⟩ := head?_eq_cons hq
  have hsent : ∀ t ∈ s.sentAt, t ≤ tCheck :=
    fun t ht => le_trans (hi.sent_le_time hc t ht) h1
  refine ⟨?_, ?_, ?_, ?_, ?_, ?_, ?_, ?_, ?_, ?_, ?_, ?_, ?_, ?_, ?_, ?_, ?_,
    ?_, ?_, ?_⟩
  · exact hi.ids
  · intro _
    show s.startedIds ++ (s.queue.head?.map Job.id).toList =
      List.range (s.settled.length + 1)
    rw [hq, hi.startedF ha]
    have hjid : j.id = s.settled.length := head_id_eq hi hq2
    rw [List.range_succ]
    simp [hjid]
  · intro h
    exact Bool.noConfusion h
  · exact hi.arr
  · exact hi.settLen
  · exact hi.procLen
  · intro t htm
    show t ≤ tStart
    rcases List.mem_append.mp htm with hold | hnew
    · exact le_trans (hi.startsTime t hold) (le_trans h1 h3)
    · rcases List.mem_singleton.mp hnew with rfl
      exact le_refl t
  · exact (List.getLast?_concat _).symm
  · show (s.starts ++ [tStart]).Chain' (fun a b => a + c.minIntervalMs ≤ b)
    refine List.Chain'.append hi.chain (List.chain'_singleton tStart) ?_
    intro x hx y hy
    rcases List.mem_singleton.mp (by simpa using hy) with rfl
    have hxlast : s.lastStartAt = some x := by
      rw [hi.lastEq]
      exact hx
    have hs := specSpacingDelay_le_waitForSlot c tCheck s.lastStartAt s.sentAt
      r hc hr hsent
    rw [hxlast] at hs h2
    unfold specSpacingDelay at hs
    dsimp only at hs
    by_cases hmin : 0 < c.minIntervalMs
    · rw [if_pos hmin] at hs
      have hmx : x + c.minIntervalMs - tCheck ≤
          max 0 (x + c.minIntervalMs - tCheck) := le_max_right _ _
      omega
    · have hmin0 : c.minIntervalMs = 0 := by
        have := hc.1
        omega
      have hxt := hi.last_le_time x hxlast
      omega
  · exact hi.compSorted
  · intro t htm
    exact le_trans (hi.compTime t htm) (le_trans h1 h3)
  · intro hW
    rcases hi.sentRecent hW with ⟨u, hu, hform⟩
    show ∃ v, v ≤ tStart ∧ prunedSent c tCheck s.sentAt =
      s.completions.filter (fun t => decide (v - c.windowMs < t))
    unfold prunedSent
    cases hmax : c.maxPerWindow with
    | none => exact ⟨u, le_trans hu (le_trans h1 h3), hform⟩
    | some n =>
      rw [if_pos hW]
      refine ⟨tCheck, h3, ?_⟩
      rw [hform, filter_filter_cut (u - c.windowMs) (tCheck - c.windowMs)
        (by have := le_trans hu h1; omega)]
  · intro hW0
    show prunedSent c tCheck s.sentAt = s.completions
    unfold prunedSent
    cases c.maxPerWindow with
    | none => exact hi.sentAll hW0
    | some n =>
      rw [if_neg (by omega)]
      exact hi.sentAll hW0
  · exact hi.winCap
  · intro n hn hW _
    have hps : prunedSent c tCheck s.sentAt =
        s.sentAt.filter (fun t => decide (tCheck - c.windowMs < t)) := by
      unfold prunedSent
      cases hmax2 : c.maxPerWindow with
      | none => simp [hmax2] at hn
      | some n2 => rw [if_pos hW]
    rcases hi.sentRecent hW with ⟨u, hu, hform⟩
    have hform2 : prunedSent c tCheck s.sentAt =
        s.completions.filter (fun t => decide (tCheck - c.windowMs < t)) := by
      rw [hps, hform, filter_filter_cut (u - c.windowMs)
        (tCheck - c.windowMs) (by have := le_trans hu h1; omega)]
    have hcount : (prunedSent c tCheck s.sentAt).length =
        winCount c.windowMs tCheck s.completions := by
      rw [hform2, winCount_eq_filter c.windowMs tCheck s.completions
        (fun t ht => le_trans (hi.compTime t ht) h1)]
    constructor
    · show (prunedSent c tCheck s.sentAt).length ≤ n
      rw [hcount]
      exact hi.winCap n hn hW tCheck
    · intro hlen
      have hlen' : n ≤ (prunedSent c tCheck s.sentAt).length := hlen
      rw [hps] at hlen'
      refine ⟨tStart, rfl, ?_⟩
      show (prunedSent c tCheck s.sentAt).headD 0 + c.windowMs ≤ tStart
      have hs := specWindowDelay_le_waitForSlot c tCheck s.lastStartAt
        s.sentAt r hc hr hsent
      unfold specWindowDelay at hs
      rw [hn] at hs
      dsimp only at hs
      rw [if_pos hlen'] at hs
      rw [hps]
      have hmx := le_max_right (0 : ℤ) ((s.sentAt.filter
        (fun t => decide (tCheck - c.windowMs < t))).headD 0 +
        c.windowMs - tCheck)
      omega
  · intro _
    constructor
    · rfl
    · show s.queue ≠ []
      rw [hq2]
      simp
  · intro h
    exact Bool.noConfusion h
  · exact hi.storageMem
  · exact hi.mirror
  · exact hi.allData

lemma inv_finishOk {P M R E : Type} {c : Config}
    {file : Option (List (Option P × M))} {s : QState P M R E}
    (hi : Inv c file s) (hc : c.wf) (j : Job P M)
    (hq : s.queue.head? = some j) (ha : s.attempting = true)
    (res : R) (tC : ℤ) (h1 : s.time ≤ tC) :
    Inv c file (finishOkOp c s j res tC) := by
  obtain ⟨tl, hq2⟩ := head?_eq_cons hq
  refine ⟨?_, ?_, ?_, ?_, ?_, ?_, ?_, ?_, ?_, ?_, ?_, ?_, ?_, ?_, ?_, ?_, ?_,
    ?_, ?_, ?_⟩
  · have hids : List.map Prod.fst s.settled ++ j.id :: List.map Job.id tl =
        List.range s.arrivals := by
      have h := hi.ids
      unfold settledIds queueIds at h
      rw [hq2] at h
      simpa using h
    show List.map Prod.fst (s.settled ++ [(j.id, Outcome.resolved res)]) ++
      List.map Job.id s.queue.tail = List.range s.arrivals
    rw [hq2]
    simpa using hids
  · intro h
    exact Bool.noConfusion h
  · intro _
    show s.startedIds =
      List.range ((s.settled ++ [(j.id, (Outcome.resolved res : Outcome R E))]).length)
    rw [List.length_append, List.length_singleton]
    exact hi.startedT ha
  · exact hi.arr
  · show (s.settled ++ [(j.id, Outcome.resolved res)]).length =
      (s.processed + 1) + s.failed
    rw [List.length_append]
    have h := hi.settLen
    simp
    omega
  · show s.processed + 1 = (s.completions ++ [tC]).length
    rw [List.length_append]
    have h := hi.procLen
    simp
    omega
  · intro t htm
    exact le_trans (hi.startsTime t htm) h1
  · exact hi.lastEq
  · exact hi.chain
  · show (s.completions ++ [tC]).Sorted (· ≤ ·)
    refine List.pairwise_append.mpr ⟨hi.compSorted, List.pairwise_singleton _ _,
      fun a hamem b hbmem => ?_⟩
    rcases List.mem_singleton.mp hbmem with rfl
    exact le_trans (hi.compTime a hamem) h1
  · intro t htm
    rcases List.mem_append.mp htm with hold | hnew
    · exact le_trans (hi.compTime t hold) h1
    · rcases List.mem_singleton.mp hnew with rfl
      exact le_refl t
  · intro hW
    rcases hi.sentRecent hW with ⟨u, hu, hform⟩
    have hutC : u ≤ tC := le_trans hu h1
    have hsorted : s.sentAt.Sorted (· ≤ ·) := by
      rw [hform]
      exact List.Pairwise.filter _ hi.compSorted
    have happ : (s.sentAt ++ [tC]).Sorted (· ≤ ·) := by
      refine List.pairwise_append.mpr ⟨hsorted, List.pairwise_singleton _ _,
        fun a hamem b hbmem => ?_⟩
      rcases List.mem_singleton.mp hbmem with rfl
      exact le_trans (hi.sent_le_time hc a hamem) h1
    refine ⟨tC, le_refl tC, ?_⟩
    show recordSent c tC s.sentAt =
      (s.completions ++ [tC]).filter (fun t => decide (tC - c.windowMs < t))
    unfold recordSent
    rw [if_pos hW, sorted_dropWhile_eq_filter (tC - c.windowMs) _ happ,
      List.filter_append, List.filter_append, hform,
      filter_filter_cut (u - c.windowMs) (tC - c.windowMs) (by omega)]
  · intro hW0
    show recordSent c tC s.sentAt = s.completions ++ [tC]
    unfold recordSent
    rw [if_neg (by omega), hi.sentAll hW0]
  · intro n hn hW T
    rcases hi.sentRecent hW with ⟨u, hu, hform⟩
    have hutC : u ≤ tC := le_trans hu h1
    rcases hi.attemptWin n hn hW ha with ⟨hLlen, hhead⟩
    show winCount c.windowMs T (s.completions ++ [tC]) ≤ n
    unfold winCount
    rw [List.filter_append, List.length_append]
    by_cases hT : T < tC
    · have hnew : ([tC].filter
          (fun t => decide (T - c.windowMs < t ∧ t ≤ T))).length = 0 := by
        simp
        omega
      have hold := hi.winCap n hn hW T
      unfold winCount at hold
      omega
    · push_neg at hT
      have hnew : ([tC].filter
          (fun t => decide (T - c.windowMs < t ∧ t ≤ T))).length ≤ 1 :=
        List.length_filter_le _ _
      have hmono : (s.completions.filter
          (fun t => decide (T - c.windowMs < t ∧ t ≤ T))).length ≤
          (s.completions.filter
            (fun t => decide (tC - c.windowMs < t))).length := by
        refine List.Sublist.length_le (List.monotone_filter_right _ ?_)
        intro t h
        simp only [decide_eq_true_eq] at h ⊢
        omega
      have hLfilter : s.completions.filter
          (fun t => decide (tC - c.windowMs < t)) =
          s.sentAt.filter (fun t => decide (tC - c.windowMs < t)) := by
        rw [hform, filter_filter_cut (u - c.windowMs) (tC - c.windowMs)
          (by omega)]
      have hkey : (s.sentAt.filter
          (fun t => decide (tC - c.windowMs < t))).length < n := by
        rcases lt_or_ge s.sentAt.length n with hL | hL
        · exact lt_of_le_of_lt (List.length_filter_le _ _) hL
        · rcases hhead hL with ⟨tS, htS, hheadb⟩
          have htStime := hi.last_le_time tS htS
          have hhead2 : s.sentAt.headD 0 ≤ tC - c.windowMs := by omega
          cases hsA : s.sentAt with
          | nil =>
            rw [hsA] at hL
            simp at hL
            have := cap_pos c hc hn
            omega
          | cons h0 t' =>
            have hh0 : h0 ≤ tC - c.windowMs := by
              rw [hsA] at hhead2
              simpa using hhead2
            rw [List.filter_cons, if_neg (by simp; omega)]
            have hfl := List.length_filter_le
              (fun t => decide (tC - c.windowMs < t)) t'
            have hLlen2 : t'.length + 1 ≤ n := by
              rw [hsA] at hLlen
              simpa using hLlen
            omega
      have hlen_eq : (s.completions.filter
          (fun t => decide (tC - c.windowMs < t))).length =
          (s.sentAt.filter (fun t => decide (tC - c.windowMs < t))).length := by
        rw [hLfilter]
      omega
  · intro n hn hW h
    exact Bool.noConfusion h
  · intro h
    exact Bool.noConfusion h
  · intro _
    rfl
  · intro hsc j' hj' hdata
    have hj'2 : j' ∈ s.queue.tail := hj'
    simp only [finishOkOp]
    cases hfn : j.isFn with
    | false =>
      rw [if_pos (by simp [hsc, hfn])]
      exact List.mem_map_of_mem _ hj'2
    | true =>
      rw [if_neg (by simp [hfn])]
      have hj'3 : j' ∈ s.queue := by
        rw [hq2]
        rw [hq2] at hj'2
        exact List.mem_cons_of_mem j hj'2
      exact hi.storageMem hsc j' hj'3 hdata
  · intro hsc hfe
    have hfe2 : s.fnEnqueued = false := hfe
    have hjdata : j.isFn = false := by
      refine hi.allData hfe2 j ?_
      rw [hq2]
      exact List.mem_cons_self j tl
    left
    simp only [finishOkOp]
    rw [if_pos (by simp [hsc, hjdata])]
  · intro hfe j' hj'
    have hj'2 : j' ∈ s.queue.tail := hj'
    have hj'3 : j' ∈ s.queue := by
      rw [hq2]
      rw [hq2] at hj'2
      exact List.mem_cons_of_mem j hj'2
    exact hi.allData hfe j' hj'3

lemma inv_finishErr {P M R E : Type} {c : Config}
    {file : Option (List (Option P × M))} {s : QState P M R E}
    (hi : Inv c file s) (_hc : c.wf) (j : Job P M)
    (hq : s.queue.head? = some j) (ha : s.attempting = true)
    (err : JobError E) (tC : ℤ) (h1 : s.time ≤ tC) :
    Inv c file (finishErrOp c s j err tC) := by
  obtain ⟨tl, hq2⟩ := head?_eq_cons hq
  refine ⟨?_, ?_, ?_, ?_, ?_, ?_, ?_, ?_, ?_, ?_, ?_, ?_, ?_, ?_, ?_, ?_, ?_,
    ?_, ?_, ?_⟩
  · have hids : List.map Prod.fst s.settled ++ j.id :: List.map Job.id tl =
        List.range s.arrivals := by
      have h := hi.ids
      unfold settledIds queueIds at h
      rw [hq2] at h
      simpa using h
    show List.map Prod.fst (s.settled ++ [(j.id, Outcome.rejected err)]) ++
      List.map Job.id s.queue.tail = List.range s.arrivals
    rw [hq2]
    simpa using hids
  · intro h
    exact Bool.noConfusion h
  · intro _
    show s.startedIds =
      List.range ((s.settled ++ [(j.id, (Outcome.rejected err : Outcome R E))]).length)
    rw [List.length_append, List.length_singleton]
    exact hi.startedT ha
  · exact hi.arr
  · show (s.settled ++ [(j.id, Outcome.rejected err)]).length =
      s.processed + (s.failed + 1)
    rw [List.length_append]
    have h := hi.settLen
    simp
    omega
  · exact hi.procLen
  · intro t htm
    exact le_trans (hi.startsTime t htm) h1
  · exact hi.lastEq
  · exact hi.chain
  · exact hi.compSorted
  · intro t htm
    exact le_trans (hi.compTime t htm) h1
  · intro hW
    rcases hi.sentRecent hW with ⟨u, hu, hform⟩
    exact ⟨u, le_trans hu h1, hform⟩
  · exact hi.sentAll
  · exact hi.winCap
  · intro n hn hW h
    exact Bool.noConfusion h
  · intro h
    exact Bool.noConfusion h
  · intro _
    rfl
  · intro hsc j' hj' hdata
    have hj'2 : j' ∈ s.queue.tail := hj'
    simp only [finishErrOp]
    cases hfn : j.isFn with
    | false =>
      rw [if_pos (by simp [hsc, hfn])]
      exact List.mem_map_of_mem _ hj'2
    | true =>
      rw [if_neg (by simp [hfn])]
      have hj'3 : j' ∈ s.queue := by
        rw [hq2]
        rw [hq2] at hj'2
        exact List.mem_cons_of_mem j hj'2
      exact hi.storageMem hsc j' hj'3 hdata
  · intro hsc hfe
    have hfe2 : s.fnEnqueued = false := hfe
    have hjdata : j.isFn = false := by
      refine hi.allData hfe2 j ?_
      rw [hq2]
      exact List.mem_cons_self j tl
    left
    simp only [finishErrOp]
    rw [if_pos (by simp [hsc, hjdata])]
  · intro hfe j' hj'
    have hj'2 : j' ∈ s.queue.tail := hj'
    have hj'3 : j' ∈ s.queue := by
      rw [hq2]
      rw [hq2] at hj'2
      exact List.mem_cons_of_mem j hj'2
    exact hi.allData hfe j' hj'3

/-- The invariant holds in every reachable state. -/
lemma inv_reachable {P M R E : Type} {c : Config} (hc : c.wf) (t0 : ℤ)
    (file : Option (List (Option P × M))) {s : QState P M R E}
    (h : Reachable c (initState c t0 file) s) : Inv c file s := by
  induction h with
  | refl => exact inv_init c t0 file
  | tail hab hbc ih =>
    cases hbc with
    | enqueue it m tE ht => exact inv_enqueue ih it m tE ht
    | startAttempt j hq ha tCheck tStart r hr h1 h2 h3 =>
      exact inv_start ih hc j hq ha tCheck tStart r hr h1 h2 h3
    | finishOk j hq ha res tC h1 hexec => exact inv_finishOk ih hc j hq ha res tC h1
    | finishErr j hq ha err tC h1 herr => exact inv_finishErr ih hc j hq ha err tC h1

lemma settledIds_eq_range {P M R E : Type} {c : Config}
    {file : Option (List (Option P × M))} {s : QState P M R E}
    (hi : Inv c file s) : settledIds s = List.range s.settled.length := by
  have h := hi.ids
  have htake := congrArg (fun l => l.take (settledIds s).length) h
  simp only at htake
  rw [List.take_left] at htake
  have hlen : (settledIds s).length + (queueIds s).length = s.arrivals := by
    have h2 := congrArg List.length h
    simpa [List.length_append] using h2
  rw [htake, List.take_range]
  have hsl : (settledIds s).length = s.settled.length := by
    unfold settledIds
    rw [List.length_map]
  rw [← hsl]
  congr 1
  omega

lemma startedIds_eq_range {P M R E : Type} {c : Config}
    {file : Option (List (Option P × M))} {s : QState P M R E}
    (hi : Inv c file s) : s.startedIds = List.range s.startedIds.length := by
  cases ha : s.attempting with
  | true =>
    have h := hi.startedT ha
    rw [h, List.length_range]
  | false =>
    have h := hi.startedF ha
    rw [h, List.length_range]

/-! The claims. -/

/-- C1.  Window cap invariant: on an instance with `windowMs > 0` and a
finite `maxPerWindow`, in every reachable state, for every time `T` the
number of recorded successful completions with timestamps in
`(T - windowMs, T]` never exceeds `maxPerWindow`. -/
theorem spec_C1_window_cap {P M R E : Type} (c : Config) (n : ℕ) (t0 : ℤ)
    (file : Option (List (Option P × M))) (s : QState P M R E)
    (hc : c.wf) (hW : 0 < c.windowMs) (hn : c.maxPerWindow = some n)
    (hr : Reachable c (initState c t0 file) s) :
    ∀ T, winCount c.windowMs T s.completions ≤ n :=
  (inv_reachable hc t0 file hr).winCap n hn hW

/-- Witness for C1 at a concrete configuration. -/
theorem spec_C1_window_cap_witness :
    winCount cfgBase.windowMs 0
      (initState (P := ℕ) (M := ℕ) (R := ℕ) (E := ℕ) cfgBase 0 none).completions
      ≤ 2 :=
  spec_C1_window_cap cfgBase 2 0 none _ (by decide) (by decide) rfl
    Relation.ReflTransGen.refl 0

/-- C2.  Spacing invariant: on an instance with `minIntervalMs > 0`,
consecutive recorded job starts are at least `minIntervalMs` apart, and the
jitter and long-pause contributions only ever add to the spacing wait
computed by `_waitForSlot`, never reduce it. -/
theorem spec_C2_spacing {P M R E : Type} (c : Config) (t0 : ℤ)
    (file : Option (List (Option P × M))) (s : QState P M R E)
    (hc : c.wf) (_hmin : 0 < c.minIntervalMs)
    (hr : Reachable c (initState c t0 file) s) :
    s.starts.Chain' (fun a b => a + c.minIntervalMs ≤ b) ∧
      ∀ (now : ℤ) (last : Option ℤ) (sent : List ℤ) (rd : RandomDraws),
        rd.wf → (∀ t ∈ sent, t ≤ now) →
        specSpacingDelay c now last ≤ (waitForSlot c now last sent rd).1 :=
  ⟨(inv_reachable hc t0 file hr).chain,
    fun now last sent rd hrd hsent =>
      specSpacingDelay_le_waitForSlot c now last sent rd hc hrd hsent⟩

/-- Witness for C2 at a concrete configuration. -/
theorem spec_C2_spacing_witness :
    (initState (P := ℕ) (M := ℕ) (R := ℕ) (E := ℕ) cfgBase 0 none).starts.Chain'
      (fun a b => a + cfgBase.minIntervalMs ≤ b) :=
  (spec_C2_spacing cfgBase 0 none _ (by decide) (by decide)
    Relation.ReflTransGen.refl).1

/-- C3.  Admission-wait composition: the wait computed by `_waitForSlot`
equals the maximum of the spec's spacing delay and window-cap delay, plus a
jitter sample in `[0, jitterMs]`, plus a long-pause sample in
`[longPauseMinMs, longPauseMaxMs]` exactly when the long-pause draw fires
(which, whenever `longPauseMaxMs > 0`, happens exactly when the uniform draw
falls below `longPauseChance`). -/
theorem spec_C3_wait_composition (c : Config) (now : ℤ) (last : Option ℤ)
    (sentAt : List ℤ) (rd : RandomDraws) (hc : c.wf) (hrd : rd.wf)
    (hsent : ∀ t ∈ sentAt, t ≤ now) :
    (waitForSlot c now last sentAt rd).1 =
      max (specSpacingDelay c now last) (specWindowDelay c now sentAt) +
        jitterContribution c rd + longPauseContribution c rd ∧
    0 ≤ jitterContribution c rd ∧ jitterContribution c rd ≤ c.jitterMs ∧
    (longPauseFires c rd →
      c.longPauseMinMs ≤ longPauseContribution c rd ∧
        longPauseContribution c rd ≤ c.longPauseMaxMs) ∧
    (¬ longPauseFires c rd → longPauseContribution c rd = 0) ∧
    (0 < c.longPauseMaxMs →
      (longPauseFires c rd ↔ rd.pauseGateR < c.longPauseChance)) := by
  refine ⟨waitForSlot_fst c now last sentAt rd hc hsent,
    jitterContribution_nonneg c rd hrd, jitterContribution_le c rd hc hrd,
    longPauseContribution_bounds c rd hc hrd,
    longPauseContribution_of_not_fires c rd, ?_⟩
  intro hmax
  constructor
  · intro hf
    exact hf.2.2
  · intro hgate
    have h0 : (0 : ℚ) ≤ rd.pauseGateR := hrd.2.2.1
    exact ⟨lt_of_le_of_lt h0 hgate, hmax, hgate⟩

/-- Witness for C3 at a concrete configuration and input. -/
theorem spec_C3_wait_composition_witness :
    (waitForSlot cfgBase 0 none [] rdZero).1 =
      max (specSpacingDelay cfgBase 0 none) (specWindowDelay cfgBase 0 []) +
        jitterContribution cfgBase rdZero + longPauseContribution cfgBase rdZero :=
  (spec_C3_wait_composition cfgBase 0 none [] rdZero (by decide) (by decide)
    (fun t ht => absurd ht (List.not_mem_nil t))).1

/-- C4.  FIFO order: in every reachable state, jobs have been started in
exactly arrival order, the settled handles are settled in exactly arrival
order, and the settled ids followed by the pending ids are precisely
`0, 1, ..., arrivals - 1` — no priority reordering ever occurs. -/
theorem spec_C4_fifo {P M R E : Type} (c : Config) (t0 : ℤ)
    (file : Option (List (Option P × M))) (s : QState P M R E)
    (hc : c.wf) (hr : Reachable c (initState c t0 file) s) :
    s.startedIds = List.range s.startedIds.length ∧
      settledIds s = List.range s.settled.length ∧
      settledIds s ++ queueIds s = List.range s.arrivals := by
  have hi := inv_reachable hc t0 file hr
  exact ⟨startedIds_eq_range hi, settledIds_eq_range hi, hi.ids⟩

/-- Witness for C4 at a concrete configuration. -/
theorem spec_C4_fifo_witness :
    settledIds (initState (P := ℕ) (M := ℕ) (R := ℕ) (E := ℕ) cfgBase 0 none) ++
      queueIds (initState (P := ℕ) (M := ℕ) (R := ℕ) (E := ℕ) cfgBase 0 none) =
      List.range (initState (P := ℕ) (M := ℕ) (R := ℕ) (E := ℕ)
        cfgBase 0 none).arrivals :=
  (spec_C4_fifo cfgBase 0 none _ (by decide) Relation.ReflTransGen.refl).2.2

/-- C5.  Exactly-once settlement: in every reachable state, every job id that
ever arrived is accounted for exactly once between the settlement history and
the pending queue — so no handle is ever settled twice, a settled job is
gone from the queue, and settling one job leaves every sibling job's single
account untouched. -/
theorem spec_C5_exactly_once {P M R E : Type} (c : Config) (t0 : ℤ)
    (file : Option (List (Option P × M))) (s : QState P M R E)
    (hc : c.wf) (hr : Reachable c (initState c t0 file) s) :
    (∀ i, i < s.arrivals →
      (settledIds s).count i + (queueIds s).count i = 1) ∧
      (settledIds s).Nodup := by
  have hi := inv_reachable hc t0 file hr
  constructor
  · intro i hilt
    have h := hi.ids
    have hcnt := congrArg (fun l => l.count i) h
    simp only at hcnt
    rw [List.count_append] at hcnt
    rw [hcnt]
    exact List.count_eq_one_of_mem (List.nodup_range _) (List.mem_range.mpr hilt)
  · rw [settledIds_eq_range hi]
    exact List.nodup_range _

/-- Witness for C5 at a concrete configuration. -/
theorem spec_C5_exactly_once_witness :
    (settledIds (initState (P := ℕ) (M := ℕ) (R := ℕ) (E := ℕ)
      cfgBase 0 none)).Nodup :=
  (spec_C5_exactly_once cfgBase 0 none _ (by decide)
    Relation.ReflTransGen.refl).2

/-- C9.  Counter balance: on an instance that restored nothing from a
persisted snapshot, in every reachable state
`enqueued = queued + processed + failed`. -/
theorem spec_C9_counter_balance {P M R E : Type} (c : Config) (t0 : ℤ)
    (file : Option (List (Option P × M))) (s : QState P M R E)
    (hc : c.wf) (hfile : (file.getD []).length = 0)
    (hr : Reachable c (initState c t0 file) s) :
    s.enqueued = s.queue.length + s.processed + s.failed := by
  have hi := inv_reachable hc t0 file hr
  have harr := hi.arr
  have hlen : (settledIds s).length + (queueIds s).length = s.arrivals := by
    have h2 := congrArg List.length hi.ids
    simpa [List.length_append] using h2
  have hsl : (settledIds s).length = s.settled.length := by
    unfold settledIds
    rw [List.length_map]
  have hql : (queueIds s).length = s.queue.length := by
    unfold queueIds
    rw [List.length_map]
  have hset := hi.settLen
  omega

/-- Witness for C9 at a concrete configuration. -/
theorem spec_C9_counter_balance_witness :
    (initState (P := ℕ) (M := ℕ) (R := ℕ) (E := ℕ) cfgBase 0 none).enqueued =
      (initState (P := ℕ) (M := ℕ) (R := ℕ) (E := ℕ) cfgBase 0 none).queue.length +
      (initState (P := ℕ) (M := ℕ) (R := ℕ) (E := ℕ) cfgBase 0 none).processed +
      (initState (P := ℕ) (M := ℕ) (R := ℕ) (E := ℕ) cfgBase 0 none).failed :=
  spec_C9_counter_balance cfgBase 0 none _ (by decide) rfl
    Relation.ReflTransGen.refl

/-- C10.  Zero-window stats: on an instance with `windowMs = 0`, completion
timestamps are never pruned (`_sentAt` is the full completion history) and
`stats().sentInWindow` equals the lifetime successful-completion count (the
`processed` counter) at every clock value. -/
theorem spec_C10_zero_window {P M R E : Type} (c : Config) (t0 : ℤ)
    (file : Option (List (Option P × M))) (s : QState P M R E)
    (hc : c.wf) (hW0 : c.windowMs = 0)
    (hr : Reachable c (initState c t0 file) s) :
    s.sentAt = s.completions ∧ s.processed = s.completions.length ∧
      ∀ now, (stats c s now).sentInWindow = s.processed := by
  have hi := inv_reachable hc t0 file hr
  have h1 := hi.sentAll hW0
  have h2 := hi.procLen
  refine ⟨h1, h2, fun now => ?_⟩
  show sentInWindow c now s.sentAt = s.processed
  unfold sentInWindow
  have hpred : (fun t : ℤ =>
      if c.windowMs = 0 then true else decide (now - c.windowMs < t)) =
      fun _ : ℤ => true := by
    funext t
    rw [if_pos hW0]
  rw [hpred, List.filter_true, h1, h2]

/-- Witness for C10 at a concrete zero-window configuration. -/
theorem spec_C10_zero_window_witness :
    (initState (P := ℕ) (M := ℕ) (R := ℕ) (E := ℕ)
      { cfgBase with windowMs := 0, maxPerWindow := none } 0 none).sentAt =
    (initState (P := ℕ) (M := ℕ) (R := ℕ) (E := ℕ)
      { cfgBase with windowMs := 0, maxPerWindow := none } 0 none).completions :=
  (spec_C10_zero_window { cfgBase with windowMs := 0, maxPerWindow := none }
    0 none _ (by decide) rfl Relation.ReflTransGen.refl).1

/-- C6 counterexample: after enqueueing a callback job and then a data job on
a storage-configured instance, the written snapshot is NOT the list of
pending data jobs' pairs: the pending callback job is also written, as a
record with a null payload. -/
theorem spec_C6_counterexample :
    Reachable cfg6 s6a s6c ∧
      s6c.storage ≠ some (dataOnlySnapshot s6c.queue) ∧
      s6c.storage = some [(none, 7), (some 5, 8)] := by
  refine ⟨?_, by decide, by decide⟩
  exact Relation.ReflTransGen.head (Step.enqueue s6a Item.fn 7 0 (by decide))
    (Relation.ReflTransGen.single
      (Step.enqueue s6b (Item.data 5) 8 0 (by decide)))

/-- C6 (amended).  Every snapshot write replaces the file with the
`{payload, meta}` pairs of ALL currently-pending jobs in queue order
(callback jobs included, with a null payload); a step either leaves the file
alone or writes exactly that list.  Consequently, on an instance on which no
callback job has ever been enqueued, the file always holds exactly the
pending jobs' pairs (or is still absent with nothing pending). -/
theorem spec_C6_snapshot_amended {P M R E : Type} (c : Config) (t0 : ℤ)
    (file : Option (List (Option P × M))) (s : QState P M R E)
    (hc : c.wf) (hsc : c.storageConfigured = true)
    (hr : Reachable c (initState c t0 file) s) :
    (∀ s2, Step c s s2 →
      s2.storage = s.storage ∨ s2.storage = some (saveItems s2.queue)) ∧
    (s.fnEnqueued = false →
      s.storage = some (saveItems s.queue) ∨
        (s.storage = none ∧ s.queue = [])) := by
  have hi := inv_reachable hc t0 file hr
  refine ⟨?_, hi.mirror hsc⟩
  intro s2 hstep
  cases hstep with
  | enqueue it m tE ht =>
    cases it with
    | fn =>
      left
      simp only [enqueueOp]
      rw [if_neg (by simp)]
    | data p =>
      right
      simp only [enqueueOp]
      rw [if_pos (by simp [hsc])]
  | startAttempt j hq ha tCheck tStart rd hrd h1 h2 h3 => exact Or.inl rfl
  | finishOk j hq ha res tC h1 hexec =>
    cases hfn : j.isFn with
    | false =>
      right
      simp only [finishOkOp]
      rw [if_pos (by simp [hsc, hfn])]
    | true =>
      left
      simp only [finishOkOp]
      rw [if_neg (by simp [hfn])]
  | finishErr j hq ha err tC h1 herr =>
    cases hfn : j.isFn with
    | false =>
      right
      simp only [finishErrOp]
      rw [if_pos (by simp [hsc, hfn])]
    | true =>
      left
      simp only [finishErrOp]
      rw [if_neg (by simp [hfn])]

/-- Witness for the amended C6: the data-job enqueue from `s6c` writes the
full pending list. -/
theorem spec_C6_snapshot_amended_witness :
    (enqueueOp cfg6 s6c (Item.data 9) 1 0).storage = s6c.storage ∨
      (enqueueOp cfg6 s6c (Item.data 9) 1 0).storage =
        some (saveItems (enqueueOp cfg6 s6c (Item.data 9) 1 0).queue) :=
  (spec_C6_snapshot_amended cfg6 0 none s6c (by decide) rfl
      (Relation.ReflTransGen.head (Step.enqueue s6a Item.fn 7 0 (by decide))
        (Relation.ReflTransGen.single
          (Step.enqueue s6b (Item.data 5) 8 0 (by decide))))).1
    (enqueueOp cfg6 s6c (Item.data 9) 1 0)
    (Step.enqueue s6c (Item.data 9) 1 0 (by decide))

/-- C7 counterexample: in the non-persistent variant the head job is popped
(`shift`) before the attempt, so mid-attempt the in-flight job is NOT in
Queue State — the queue is empty while the job is being attempted. -/
theorem spec_C7_counterexample :
    NonPersistent.ReachableNP NonPersistent.cfgNP NonPersistent.sNP0
        NonPersistent.sNP2 ∧
      NonPersistent.sNP2.inFlight = some NonPersistent.jNP ∧
      NonPersistent.sNP2.queue.head? ≠ some NonPersistent.jNP ∧
      NonPersistent.sNP2.queue = [] := by
  refine ⟨?_, rfl, by decide, rfl⟩
  exact Relation.ReflTransGen.head
    (NonPersistent.StepNP.enqueue NonPersistent.sNP0 3 0 (by decide))
    (Relation.ReflTransGen.single
      (NonPersistent.StepNP.startAttempt NonPersistent.sNP1 NonPersistent.jNP
        rfl rfl 0 0 rdZero (by decide) (by decide) (by decide) (by decide)))

/-- C7 (amended).  In the persistent variant the claim holds: mid-attempt,
the in-flight job is still the head of Queue State and (for data jobs, on a
storage-configured instance) its pair is still present in the persisted
snapshot; and any step that shrinks the queue is the conclusion of an
attempt, which removes exactly the head.  (The non-persistent variant pops
the head before the attempt instead; see the counterexample.) -/
theorem spec_C7_peek_amended {P M R E : Type} (c : Config) (t0 : ℤ)
    (file : Option (List (Option P × M))) (s : QState P M R E)
    (hc : c.wf) (hr : Reachable c (initState c t0 file) s) :
    (∀ j : Job P M, s.inFlight = some j →
      s.queue.head? = some j ∧
        (c.storageConfigured = true → j.isFn = false →
          (j.payload, j.meta) ∈ s.storage.getD [])) ∧
    (∀ s2, Step c s s2 → s2.queue.length < s.queue.length →
      s.attempting = true ∧ s2.attempting = false ∧
        s2.queue = s.queue.tail) := by
  have hi := inv_reachable hc t0 file hr
  constructor
  · intro j hj
    cases ha : s.attempting with
    | false =>
      rw [hi.flightF ha] at hj
      cases hj
    | true =>
      rcases hi.flightT ha with ⟨hf, hne⟩
      rw [hf] at hj
      refine ⟨hj, fun hsc hdata => ?_⟩
      obtain ⟨tl, hq2⟩ := head?_eq_cons hj
      refine hi.storageMem hsc j ?_ hdata
      rw [hq2]
      exact List.mem_cons_self j tl
  · intro s2 hstep hlen
    cases hstep with
    | enqueue it m tE ht =>
      exfalso
      have hplus : (enqueueOp c s it m tE).queue.length =
          s.queue.length + 1 := by
        simp [enqueueOp]
      omega
    | startAttempt j hq ha tCheck tStart rd hrd h1 h2 h3 =>
      exfalso
      have heq : (startOp c s tCheck tStart rd).queue.length =
          s.queue.length := rfl
      omega
    | finishOk j hq ha res tC h1 hexec => exact ⟨ha, rfl, rfl⟩
    | finishErr j hq ha err tC h1 herr => exact ⟨ha, rfl, rfl⟩

/-- Witness for the amended C7: mid-attempt, the in-flight job is still the
queue head. -/
theorem spec_C7_peek_amended_witness :
    sB2.queue.head? = some jB ∧
      (cfg6.storageConfigured = true → jB.isFn = false →
        (jB.payload, jB.meta) ∈ sB2.storage.getD []) :=
  (spec_C7_peek_amended cfg6 0 none sB2 (by decide)
      (Relation.ReflTransGen.head (Step.enqueue s6a Item.fn 7 0 (by decide))
        (Relation.ReflTransGen.single
          (Step.startAttempt s6b jB rfl rfl 0 0 rdZero (by decide) (by decide)
            (by decide) (by decide))))).1 jB rfl

/-- C8.  Configuration error timing: on an instance with no processor,
(1) enqueueing a data payload always succeeds — the counter increments and
the job is appended, with no validation failure; (2) the attempt of a data
job can only conclude by rejecting its handle with the `No processor for
data item` error, incrementing the failed counter and removing the job like
any failed job; (3) callback jobs on the same instance still execute
normally: a successful conclusion resolving the handle is a legal step. -/
theorem spec_C8_config_error {P M R E : Type} (c : Config)
    (_hc : c.wf) (hp : c.hasProcessor = false) :
    (∀ (s : QState P M R E) (p : P) (m : M) (tE : ℤ),
      (enqueueOp c s (Item.data p) m tE).enqueued = s.enqueued + 1 ∧
        (enqueueOp c s (Item.data p) m tE).queue =
          s.queue ++ [Job.mk s.arrivals false (some p) m]) ∧
    (∀ (s s2 : QState P M R E) (j : Job P M), s.queue.head? = some j →
      j.isFn = false → s.attempting = true → Step c s s2 →
      s2.attempting = false →
      s2.settled = s.settled ++ [(j.id, Outcome.rejected JobError.noProcessor)] ∧
        s2.failed = s.failed + 1 ∧ s2.processed = s.processed ∧
        s2.queue = s.queue.tail) ∧
    (∀ (s : QState P M R E) (j : Job P M), s.queue.head? = some j →
      j.isFn = true → s.attempting = true → ∀ (res : R) (tC : ℤ),
      s.time ≤ tC →
      Step c s (finishOkOp c s j res tC) ∧
        (finishOkOp c s j res tC).settled =
          s.settled ++ [(j.id, Outcome.resolved res)]) := by
  refine ⟨fun s p m tE => ⟨rfl, rfl⟩, ?_, ?_⟩
  · intro s s2 j hq hdata hatt hstep hatt2
    cases hstep with
    | enqueue it m tE ht =>
      exfalso
      have h5 : s.attempting = false := hatt2
      rw [hatt] at h5
      exact Bool.noConfusion h5
    | startAttempt j' hq' ha' tCheck tStart rd hrd h1 h2 h3 =>
      exfalso
      rw [hatt] at ha'
      exact Bool.noConfusion ha'
    | finishOk j' hq' ha' res tC h1 hexec =>
      exfalso
      have hjj : j' = j := by
        have h5 := hq'.symm.trans hq
        exact Option.some.inj h5
      rcases hexec with hfn | hproc
      · rw [hjj, hdata] at hfn
        exact Bool.noConfusion hfn
      · rw [hp] at hproc
        exact Bool.noConfusion hproc
    | finishErr j' hq' ha' err tC h1 herr =>
      have hjj : j' = j := by
        have h5 := hq'.symm.trans hq
        exact Option.some.inj h5
      cases err with
      | exec e =>
        exfalso
        rcases herr with hfn | hproc
        · rw [hjj, hdata] at hfn
          exact Bool.noConfusion hfn
        · rw [hp] at hproc
          exact Bool.noConfusion hproc
      | noProcessor =>
        rw [hjj]
        exact ⟨rfl, rfl, rfl, rfl⟩
  · intro s j hq hfn hatt res tC htC
    exact ⟨Step.finishOk s j hq hatt res tC htC (Or.inl hfn), rfl⟩

/-- Witness for C8 at a concrete instance with no processor. -/
theorem spec_C8_config_error_witness :
    (enqueueOp cfg8 (initState (P := ℕ) (M := ℕ) (R := ℕ) (E := ℕ)
        cfg8 0 none) (Item.data 1) 2 0).enqueued =
      (initState (P := ℕ) (M := ℕ) (R := ℕ) (E := ℕ) cfg8 0 none).enqueued + 1 :=
  ((spec_C8_config_error (P := ℕ) (M := ℕ) (R := ℕ) (E := ℕ) cfg8
    (by decide) rfl).1
    (initState cfg8 0 none) 1 2 0).1

end RateLimitedQueue

